import Mathlib

/-!
Verification of the viewport rendering engine of `tui_windows.py`:
the ANSI-escape-aware truncation function `truncate_ansi_string` and the
scrollable viewport state machine of `ScrollableWindow`.

Strings are modelled as `List Char`; Python integers as `Int` (or `Nat`
where the Python value is provably non-negative); exceptions as an
explicit `Except` result.
-/

/-- The escape character `"\x1b"` that starts every ANSI escape sequence
matched by `ANSI_PATTERN`. -/
def escChar : Char := '\x1b'

/-- Character class `[@-Z\\-_]` of `ANSI_PATTERN` (codepoints 0x40-0x5A and
0x5C-0x5F): the second byte of a two-byte escape sequence. -/
def isTwoByteFinal (c : Char) : Bool :=
  decide ((64 ≤ c.toNat ∧ c.toNat ≤ 90) ∨ (92 ≤ c.toNat ∧ c.toNat ≤ 95))

/-- Character class `[0-?]` of `ANSI_PATTERN` (codepoints 0x30-0x3F): CSI
parameter bytes. -/
def isCsiParam (c : Char) : Bool :=
  decide (48 ≤ c.toNat ∧ c.toNat ≤ 63)

/-- Character class of CSI intermediate bytes in `ANSI_PATTERN` (codepoints
0x20-0x2F, i.e. space through the slash character). -/
def isCsiInter (c : Char) : Bool :=
  decide (32 ≤ c.toNat ∧ c.toNat ≤ 47)

/-- Character class `[@-~]` of `ANSI_PATTERN` (codepoints 0x40-0x7E): the
single final byte of a CSI sequence. -/
def isCsiFinal (c : Char) : Bool :=
  decide (64 ≤ c.toNat ∧ c.toNat ≤ 126)

/-- The intermediate-bytes-then-final-byte stage (zero or more intermediate
bytes, then one final byte) of the CSI alternative of `ANSI_PATTERN`.  Returns the consumed characters and the
remainder.  The three CSI character classes are pairwise disjoint, so the
greedy regex scan is deterministic and equals this `takeWhile` form. -/
def interTail (s : List Char) : Option (List Char × List Char) :=
  match s.dropWhile isCsiInter with
  | f :: r => if isCsiFinal f then some (s.takeWhile isCsiInter ++ [f], r) else none
  | [] => none

/-- The parameter-bytes stage of the CSI alternative of `ANSI_PATTERN`
(everything after the `ESC [` prefix: parameter bytes, then intermediate
bytes, then one final byte). -/
def csiTail (s : List Char) : Option (List Char × List Char) :=
  match interTail (s.dropWhile isCsiParam) with
  | some (m, r) => some (s.takeWhile isCsiParam ++ m, r)
  | none => none

/-- A match of `ANSI_PATTERN` at the head of the string: either `ESC` plus one byte in `[@-Z\\-_]`, or `ESC [`
followed by a CSI body.  Returns the matched text and the remainder, or
`none` when no escape sequence starts here (models `re.match`). -/
def matchEsc : List Char → Option (List Char × List Char)
  | c0 :: c1 :: rest =>
    if c0 = escChar then
      if isTwoByteFinal c1 then some ([c0, c1], rest)
      else if c1 = '[' then
        match csiTail rest with
        | some (m, r) => some (c0 :: c1 :: m, r)
        | none => none
      else none
    else none
  | _ => none

/-- A component of `re.split(ANSI_PATTERN, string)`: `plain` components are
the text between matches (possibly empty), `esc` components are the captured
escape sequences. -/
inductive Token where
  | plain : List Char → Token
  | esc : List Char → Token
deriving DecidableEq

/-- The raw text of a component. -/
def Token.raw : Token → List Char
  | Token.plain p => p
  | Token.esc e => e

/-- Concatenation of the raw text of all components. -/
def flat (ts : List Token) : List Char := (ts.map Token.raw).flatten

/-- Push one character onto the front of the leading plain component. -/
def consPlain (c : Char) : List Token → List Token
  | Token.plain p :: ts => Token.plain (c :: p) :: ts
  | ts => Token.plain [c] :: ts

/-- Left-to-right scan of `re.split(ANSI_PATTERN, string)`: at each position
try to match an escape sequence; on success emit it (with the plain text
accumulated so far before it), otherwise move one character forward.  The
`fuel` argument makes the recursion structural; it is always called with
fuel greater than the length of the string, which suffices because every
escape match consumes at least two characters. -/
def splitAnsiGo : Nat → List Char → List Token
  | 0, s => [Token.plain s]
  | fuel + 1, s =>
    match matchEsc s with
    | some (e, r) => Token.plain [] :: Token.esc e :: splitAnsiGo fuel r
    | none =>
      match s with
      | [] => [Token.plain []]
      | c :: t => consPlain c (splitAnsiGo fuel t)

/-- `re.split(ANSI_PATTERN, string)` together with the classification that
the loop in `truncate_ansi_string` performs via `re.match`: the list of
components of the string, alternating plain text and escape sequences. -/
def splitAnsi (s : List Char) : List Token := splitAnsiGo (s.length + 1) s

/-- Number of characters of a component list that belong to plain text
(escape sequences contribute nothing). -/
def plainLen : List Token → Nat
  | [] => 0
  | Token.plain p :: ts => p.length + plainLen ts
  | Token.esc _ :: ts => plainLen ts

/-- The display length of a string: the count of its characters that do not
belong to an ANSI escape sequence (the length of `ANSI_PATTERN.sub("", s)`). -/
def displayLen (s : List Char) : Nat := plainLen (splitAnsi s)

/-- The escape sequences of a component list, in order. -/
def escToks : List Token → List (List Char)
  | [] => []
  | Token.esc e :: ts => e :: escToks ts
  | Token.plain _ :: ts => escToks ts

/-- The loop body of `truncate_ansi_string`: iterate over the components of
`re.split(ANSI_PATTERN, string)` carrying the running display `position`;
escape components are always emitted; a plain component is skipped while it
lies before `start`, trimmed at the `start` boundary, and cut at the
`stop = start + length` boundary.  (Nat subtraction models Python's
`max(0, a - b)`; the code's `if remaining_to_end <= 0: pass` is a no-op;
`component[:remaining_to_end]` equals the component when it already fits,
so the final `if`/`else` collapses to a single `take`.) -/
def truncComponents (start stop : Nat) : List Token → Nat → List (List Char)
  | [], _ => []
  | Token.esc e :: ts, position => e :: truncComponents start stop ts position
  | Token.plain component :: ts, position =>
    if component.length ≤ start - position then
      truncComponents start stop ts (position + component.length)
    else
      (component.drop (start - position)).take (stop - (position + (start - position))) ::
        truncComponents start stop ts
          (position + (start - position) + (component.length - (start - position)))

/-- `truncate_ansi_string(string, start, length)` for non-negative `start`
and `length` (the body after the `ValueError` guard): the join of the kept
pieces of all components. -/
def truncate_ansi_string (s : List Char) (start length : Nat) : List Char :=
  (truncComponents start (start + length) (splitAnsi s) 0).flatten

/-- A Python exception as far as this module can observe it: a `gdb.error`
domain error with its message, the `ValueError` raised by
`truncate_ansi_string`, or an exception of any other type. -/
inductive PyExc where
  | gdbError : List Char → PyExc
  | valueError : PyExc
  | other : List Char → PyExc
deriving DecidableEq

/-- `truncate_ansi_string` including its `ValueError` guard for possibly
negative Python arguments: `raise ValueError("start and length must be
non-negative")` when `start < 0 or length < 0`, otherwise the loop body. -/
def truncateChecked (s : List Char) (start length : Int) : Except PyExc (List Char) :=
  if start < 0 ∨ length < 0 then Except.error PyExc.valueError
  else Except.ok (truncate_ansi_string s start.toNat length.toNat)

/-- The host TUI window handle: `height`, `width` and `is_valid()` as read
during one render. -/
structure TuiWindow where
  height : Nat
  width : Nat
  valid : Bool
deriving DecidableEq

/-- The mutable per-panel state of `ScrollableWindow`: the scroll-cache flag,
the cached `(lines, content_height, content_width)` snapshot, and the two
scroll offsets (Python ints, so they may be negative before clamping). -/
structure WindowState where
  use_cached_lines : Bool
  cached_lines : Option (List (List Char) × Nat × Nat)
  vscroll_offset : Int
  hscroll_offset : Int
deriving DecidableEq

/-- The state set up by `ScrollableWindow.__init__`. -/
def initState : WindowState := ⟨false, none, 0, 0⟩

/-- The outcome of one call to the content provider `get_lines`: the list of
lines, or the exception it raised. -/
def Provider : Type := Except PyExc (List (List Char))

/-- `ScrollableWindow.get_lines_or_error`: return the provider's lines, or
`[str(exc)]` if a `gdb.error` occurs; exceptions of any other type are not
caught and propagate. -/
def get_lines_or_error (res : Provider) : Except PyExc (List (List Char)) :=
  match res with
  | Except.error (PyExc.gdbError msg) => Except.ok [msg]
  | r => r

/-- `max(len(ANSI_PATTERN.sub("", l)) for l in lines)` for a non-empty list
of lines (for `[]` the fold's base `0` stands in for Python's `max` error,
but the code only evaluates it on non-empty `lines`). -/
def contentWidth (lines : List (List Char)) : Nat :=
  List.foldl max 0 (lines.map displayLen)

/-- Sequential evaluation of `[f l for l in lines]` where each element may
raise: the first exception propagates. -/
def mapExcept (f : List Char → Except PyExc (List Char)) :
    List (List Char) → Except PyExc (List (List Char))
  | [] => Except.ok []
  | l :: ls =>
    match f l with
    | Except.error e => Except.error e
    | Except.ok b =>
      match mapExcept f ls with
      | Except.error e => Except.error e
      | Except.ok bs => Except.ok (b :: bs)

/-- The second half of `ScrollableWindow.get_viewport_content`, from the
comment `Limit scroll to the content height` on: clamp `vscroll_offset` to
`[0, max(0, content_height - window_height)]`, take the vertical slice
(`lines[vscroll_offset:]` when the scrolled window reaches the end of the
content, `lines[vscroll_offset : vscroll_offset + window_height]` otherwise),
clamp `hscroll_offset` to `[0, max(0, content_width - (width - 1))]`, then
truncate every selected line horizontally and join with newlines.  Returns
the produced string (or the exception a `truncate_ansi_string` call raises)
together with the state as mutated so far. -/
def applyViewport (tw : TuiWindow) (lines : List (List Char))
    (contentHeight cWidth : Nat) (st : WindowState) :
    Except PyExc (List Char) × WindowState :=
  let v : Int := max 0 (min ((contentHeight : Int) - (tw.height : Int)) st.vscroll_offset)
  let lines2 : List (List Char) :=
    if (tw.height : Int) - (contentHeight : Int) < 0 then
      if 0 ≤ (tw.height : Int) - ((contentHeight : Int) - v) then
        List.drop v.toNat lines
      else
        List.take tw.height (List.drop v.toNat lines)
    else lines
  let h : Int := max 0 (min ((cWidth : Int) - ((tw.width : Int) - 1)) st.hscroll_offset)
  let st2 : WindowState := ⟨st.use_cached_lines, st.cached_lines, v, h⟩
  match mapExcept (fun l => truncateChecked l h ((tw.width : Int) - 1)) lines2 with
  | Except.error e => (Except.error e, st2)
  | Except.ok ts => (Except.ok (List.intercalate ['\n'] ts), st2)

/-- `ScrollableWindow.get_viewport_content`: reuse the cached snapshot when
`use_cached_lines` is set and a snapshot exists (resetting the flag),
otherwise regenerate via `get_lines_or_error`, caching the snapshot when it
is non-empty; an empty snapshot yields the empty string with no clamping.
The third component counts how many times the content provider was invoked
(0 or 1). -/
def get_viewport_content (tw : TuiWindow) (provider : Provider) (st : WindowState) :
    Except PyExc (List Char) × WindowState × Nat :=
  match st.cached_lines, st.use_cached_lines with
  | some c, true =>
    let st1 : WindowState := ⟨false, st.cached_lines, st.vscroll_offset, st.hscroll_offset⟩
    if c.1 = [] then (Except.ok [], st1, 0)
    else
      let p := applyViewport tw c.1 c.2.1 c.2.2 st1
      (p.1, p.2, 0)
  | _, _ =>
    match get_lines_or_error provider with
    | Except.error e => (Except.error e, st, 1)
    | Except.ok lines =>
      if lines = [] then (Except.ok [], st, 1)
      else
        let st1 : WindowState :=
          ⟨st.use_cached_lines, some (lines, lines.length, contentWidth lines),
            st.vscroll_offset, st.hscroll_offset⟩
        let p := applyViewport tw lines lines.length (contentWidth lines) st1
        (p.1, p.2, 1)

/-- `ScrollableWindow.render`: a no-op when the window is invalid, otherwise
compute the viewport content and write it.  `Except.ok (some out)` means
`out` was written; `Except.ok none` means the invalid-window early return;
`Except.error e` means the exception propagated out of `render`. -/
def render (tw : TuiWindow) (provider : Provider) (st : WindowState) :
    Except PyExc (Option (List Char)) × WindowState × Nat :=
  if tw.valid = false then (Except.ok none, st, 0)
  else
    match get_viewport_content tw provider st with
    | (Except.ok out, st1, c) => (Except.ok (some out), st1, c)
    | (Except.error e, st1, c) => (Except.error e, st1, c)

/-- `ScrollableWindow.vscroll`: add `num` to the vertical offset, mark the
cache reusable, and render immediately. -/
def vscroll (tw : TuiWindow) (provider : Provider) (st : WindowState) (num : Int) :
    Except PyExc (Option (List Char)) × WindowState × Nat :=
  render tw provider ⟨true, st.cached_lines, st.vscroll_offset + num, st.hscroll_offset⟩

/-- `ScrollableWindow.hscroll`: add `num` to the horizontal offset, mark the
cache reusable, and render immediately. -/
def hscroll (tw : TuiWindow) (provider : Provider) (st : WindowState) (num : Int) :
    Except PyExc (Option (List Char)) × WindowState × Nat :=
  render tw provider ⟨true, st.cached_lines, st.vscroll_offset, st.hscroll_offset + num⟩

/-- The snapshot a call to `get_viewport_content` will display from: the
cached one when the cache is reusable, otherwise the freshly generated one
(`none` when generation raises or yields zero lines). -/
def usedSnapshot (provider : Provider) (st : WindowState) :
    Option (List (List Char) × Nat × Nat) :=
  match st.cached_lines, st.use_cached_lines with
  | some c, true => some c
  | _, _ =>
    match get_lines_or_error provider with
    | Except.ok lines =>
      if lines = [] then none else some (lines, lines.length, contentWidth lines)
    | Except.error _ => none

/-- A complete ANSI escape sequence, exactly the full matches of
`ANSI_PATTERN`: the two-byte form, or the CSI form with parameter bytes,
intermediate bytes and one final byte. -/
inductive IsEscRaw : List Char → Prop
  | twoByte : ∀ c, isTwoByteFinal c = true →
      IsEscRaw [escChar, c]
  | csi : ∀ ps ins f, (∀ c ∈ ps, isCsiParam c = true) → (∀ c ∈ ins, isCsiInter c = true) →
      isCsiFinal f = true → IsEscRaw (escChar :: '[' :: (ps ++ (ins ++ [f])))

/-- `p` is a run of plain text when it is followed by `t`: no escape
sequence matches at any position inside `p`. -/
def PlainOK (p t : List Char) : Prop :=
  ∀ i, i < p.length → matchEsc (List.drop i p ++ t) = none

/-- Well-formed component lists: alternating plain and escape components,
beginning and ending with a (possibly empty) plain component, where every
escape component is a complete escape sequence and no escape sequence
matches inside a plain component.  `re.split(ANSI_PATTERN, s)` always
produces such a list, and such a list is exactly recovered by re-splitting
its concatenation. -/
inductive GoodToks : List Token → Prop
  | last : ∀ p, PlainOK p [] → GoodToks [Token.plain p]
  | step : ∀ p e ts, IsEscRaw e → PlainOK p (e ++ flat ts) → GoodToks ts →
      GoodToks (Token.plain p :: Token.esc e :: ts)

/-- A continuation that can never extend an escape-sequence match: the empty
string, or anything starting with another `ESC` (which belongs to none of
the character classes a pending match could continue with). -/
def Hostile (t : List Char) : Prop := t = [] ∨ ∃ r, t = escChar :: r

/-- The part of a plain component that `truncate_ansi_string` keeps: the
characters whose display index (the component occupies display indices
`position, position+1, ...`) lies in `[start, stop)`. -/
def keptSeg (start stop position : Nat) (component : List Char) : List Char :=
  (component.drop (start - position)).take (stop - max position start)

/-- The component list of the output of `truncate_ansi_string`: escape
components kept verbatim, plain components replaced by their kept segment. -/
def truncToks (start stop : Nat) : List Token → Nat → List Token
  | [], _ => []
  | Token.esc e :: ts, position => Token.esc e :: truncToks start stop ts position
  | Token.plain component :: ts, position =>
    Token.plain (keptSeg start stop position component) ::
      truncToks start stop ts (position + component.length)

/-- The ten single-character content lines `"0" .. "9"` of the end-to-end
scrolling scenario. -/
def scenLines : List (List Char) := (List.range 10).map (fun n => [Char.ofNat (48 + n)])

/-- The window of the end-to-end scrolling scenario: height 4, a width wide
enough that no horizontal truncation occurs, and valid. -/
def scenWindow : TuiWindow := ⟨4, 80, true⟩

instance instDecEqExcept {e a : Type} [DecidableEq e] [DecidableEq a] :
    DecidableEq (Except e a) := fun x y =>
  match x, y with
  | Except.ok u, Except.ok v =>
    if h : u = v then isTrue (by rw [h]) else isFalse (fun hc => by cases hc; exact h rfl)
  | Except.ok u, Except.error w => isFalse (fun hc => by cases hc)
  | Except.error w, Except.ok u => isFalse (fun hc => by cases hc)
  | Except.error w, Except.error z =>
    if h : w = z then isTrue (by rw [h]) else isFalse (fun hc => by cases hc; exact h rfl)

/-- Doctest cases of `truncate_ansi_string` from the source. -/
example : truncate_ansi_string ("abcdef".toList) 0 0 = [] := by decide

example : truncate_ansi_string ("abcdef".toList) 2 3 = "cde".toList := by decide

example :
    truncate_ansi_string ("\x1b[31mhello\x1b[0m".toList) 0 3 = "\x1b[31mhel\x1b[0m".toList := by
  decide

example :
    truncate_ansi_string (" \x1b[1mabc\x1b[0mdef\x1b[35;1mghi\x1b[0m".toList) 2 3 =
      "\x1b[1mbc\x1b[0md\x1b[35;1m\x1b[0m".toList := by
  decide

example :
    truncate_ansi_string (" \x1b[1mabc\x1b[0mdef\x1b[35;1mghi\x1b[0m".toList) 5 2 =
      "\x1b[1m\x1b[0mef\x1b[35;1m\x1b[0m".toList := by
  decide

lemma inter_not_param {c : Char} (h : isCsiInter c = true) : isCsiParam c = false := by
  simp only [isCsiInter, isCsiParam, decide_eq_true_eq, decide_eq_false_iff_not] at h ⊢
  omega

lemma final_not_param {c : Char} (h : isCsiFinal c = true) : isCsiParam c = false := by
  simp only [isCsiFinal, isCsiParam, decide_eq_true_eq, decide_eq_false_iff_not] at h ⊢
  omega

lemma final_not_inter {c : Char} (h : isCsiFinal c = true) : isCsiInter c = false := by
  simp only [isCsiFinal, isCsiInter, decide_eq_true_eq, decide_eq_false_iff_not] at h ⊢
  omega

lemma esc_not_twoByteFinal : isTwoByteFinal escChar = false := by decide

lemma esc_not_bracket : (escChar = '[') = False := by simp [escChar]

lemma esc_not_param : isCsiParam escChar = false := by decide

lemma esc_not_inter : isCsiInter escChar = false := by decide

lemma esc_not_final : isCsiFinal escChar = false := by decide

lemma takeWhile_dropWhile_append {p : Char → Bool} :
    ∀ l1 l2 : List Char, (∀ c ∈ l1, p c = true) → (∀ c r, l2 = c :: r → p c = false) →
      (l1 ++ l2).takeWhile p = l1 ∧ (l1 ++ l2).dropWhile p = l2 := by
  intro l1
  induction l1 with
  | nil =>
    intro l2 _ h2
    cases l2 with
    | nil => simp
    | cons c r => simp [List.takeWhile_cons, List.dropWhile_cons, h2 c r rfl]
  | cons a l1 ih =>
    intro l2 h1 h2
    have ha : p a = true := h1 a (List.mem_cons_self a l1)
    have hrec := ih l2 (fun c hc => h1 c (List.mem_cons_of_mem a hc)) h2
    simp [List.takeWhile_cons, List.dropWhile_cons, ha, hrec.1, hrec.2]

lemma interTail_some {s m r : List Char} (h : interTail s = some (m, r)) :
    ∃ ins f, m = ins ++ [f] ∧ (∀ c ∈ ins, isCsiInter c = true) ∧ isCsiFinal f = true ∧
      s = ins ++ (f :: r) := by
  unfold interTail at h
  cases hd : s.dropWhile isCsiInter with
  | nil => rw [hd] at h; simp at h
  | cons f r0 =>
    rw [hd] at h
    dsimp only at h
    by_cases hf : isCsiFinal f = true
    · rw [if_pos hf] at h
      simp only [Option.some.injEq, Prod.mk.injEq] at h
      obtain ⟨hm, hr⟩ := h
      refine ⟨s.takeWhile isCsiInter, f, hm.symm, fun c hc => List.mem_takeWhile_imp hc, hf, ?_⟩
      conv_lhs => rw [← List.takeWhile_append_dropWhile isCsiInter s]
      rw [hd, hr]
    · rw [if_neg hf] at h; simp at h

lemma csiTail_some {s m r : List Char} (h : csiTail s = some (m, r)) :
    ∃ ps ins f, m = ps ++ (ins ++ [f]) ∧ (∀ c ∈ ps, isCsiParam c = true) ∧
      (∀ c ∈ ins, isCsiInter c = true) ∧ isCsiFinal f = true ∧
      s = ps ++ (ins ++ (f :: r)) := by
  unfold csiTail at h
  cases hi : interTail (s.dropWhile isCsiParam) with
  | none => rw [hi] at h; simp at h
  | some pr =>
    obtain ⟨m0, r0⟩ := pr
    rw [hi] at h
    simp only [Option.some.injEq, Prod.mk.injEq] at h
    obtain ⟨hm, hr⟩ := h
    obtain ⟨ins, f, hm0, hins, hf, hsd⟩ := interTail_some hi
    refine ⟨s.takeWhile isCsiParam, ins, f, ?_, ?_, hins, hf, ?_⟩
    · rw [← hm, hm0]
    · exact fun c hc => List.mem_takeWhile_imp hc
    · conv_lhs => rw [← List.takeWhile_append_dropWhile isCsiParam s]
      rw [hsd, hr]

lemma IsEscRaw_head {e : List Char} (h : IsEscRaw e) : ∃ t, e = escChar :: t := by
  cases h with
  | twoByte c hc => exact ⟨[c], rfl⟩
  | csi ps ins f h1 h2 h3 => exact ⟨'[' :: (ps ++ (ins ++ [f])), rfl⟩

lemma IsEscRaw_length {e : List Char} (h : IsEscRaw e) : 2 ≤ e.length := by
  cases h with
  | twoByte c hc => simp
  | csi ps ins f h1 h2 h3 => simp

lemma matchEsc_some {s e r : List Char} (h : matchEsc s = some (e, r)) :
    s = e ++ r ∧ IsEscRaw e := by
  match s with
  | [] => simp [matchEsc] at h
  | [c] => simp [matchEsc] at h
  | c0 :: c1 :: rest =>
    unfold matchEsc at h
    dsimp only at h
    by_cases h0 : c0 = escChar
    · rw [if_pos h0] at h
      by_cases h1 : isTwoByteFinal c1 = true
      · rw [if_pos h1] at h
        simp only [Option.some.injEq, Prod.mk.injEq] at h
        obtain ⟨he, hr⟩ := h
        subst he; subst hr; subst h0
        exact ⟨rfl, IsEscRaw.twoByte c1 h1⟩
      · rw [if_neg h1] at h
        by_cases h2 : c1 = '['
        · rw [if_pos h2] at h
          cases hc : csiTail rest with
          | none => rw [hc] at h; simp at h
          | some pr =>
            obtain ⟨m, r0⟩ := pr
            rw [hc] at h
            simp only [Option.some.injEq, Prod.mk.injEq] at h
            obtain ⟨he, hr⟩ := h
            obtain ⟨ps, ins, f, hm, hps, hins, hf, hrest⟩ := csiTail_some hc
            subst h0; subst h2; subst hr
            constructor
            · rw [← he, hrest, hm]
              simp
            · rw [← he, hm]
              exact IsEscRaw.csi ps ins f hps hins hf
        · rw [if_neg h2] at h; simp at h
    · rw [if_neg h0] at h; simp at h

lemma csiTail_build {ps ins : List Char} {f : Char} (r : List Char)
    (hps : ∀ c ∈ ps, isCsiParam c = true) (hins : ∀ c ∈ ins, isCsiInter c = true)
    (hf : isCsiFinal f = true) :
    csiTail (ps ++ (ins ++ (f :: r))) = some (ps ++ (ins ++ [f]), r) := by
  have hp : ∀ c r0, (ins ++ (f :: r)) = c :: r0 → isCsiParam c = false := by
    intro c r0 hc
    cases ins with
    | nil =>
      simp only [List.nil_append] at hc
      cases hc
      exact final_not_param hf
    | cons a t =>
      simp only [List.cons_append] at hc
      have ha : a = c := (List.cons.inj hc).1
      rw [← ha]
      exact inter_not_param (hins a (List.mem_cons_self a t))
  obtain ⟨htake, hdrop⟩ := takeWhile_dropWhile_append ps (ins ++ (f :: r)) hps hp
  have hif : ∀ c r0, (f :: r) = c :: r0 → isCsiInter c = false := by
    intro c r0 hc
    cases hc
    exact final_not_inter hf
  obtain ⟨htake2, hdrop2⟩ := takeWhile_dropWhile_append ins (f :: r) hins hif
  unfold csiTail interTail
  rw [hdrop, htake, hdrop2, htake2]
  dsimp only
  rw [if_pos hf]

lemma matchEsc_append {e : List Char} (h : IsEscRaw e) (r : List Char) :
    matchEsc (e ++ r) = some (e, r) := by
  cases h with
  | twoByte c hc =>
    show matchEsc (escChar :: c :: r) = _
    unfold matchEsc
    dsimp only
    rw [if_pos rfl, if_pos hc]
  | csi ps ins f hps hins hf =>
    show matchEsc (escChar :: '[' :: ((ps ++ (ins ++ [f])) ++ r)) = _
    unfold matchEsc
    dsimp only
    rw [if_pos rfl]
    rw [if_neg (by decide), if_pos rfl]
    have : (ps ++ (ins ++ [f])) ++ r = ps ++ (ins ++ (f :: r)) := by simp
    rw [this, csiTail_build r hps hins hf]

lemma interTail_hostile {t : List Char} (h : Hostile t) : interTail t = none := by
  cases h with
  | inl h0 => subst h0; rfl
  | inr h0 =>
    obtain ⟨r, hr⟩ := h0
    subst hr
    unfold interTail
    rw [List.dropWhile_cons]
    rw [esc_not_inter]
    simp [esc_not_final]

lemma csiTail_hostile {t : List Char} (h : Hostile t) : csiTail t = none := by
  unfold csiTail
  cases h with
  | inl h0 => subst h0; simp [interTail]
  | inr h0 =>
    obtain ⟨r, hr⟩ := h0
    subst hr
    rw [List.dropWhile_cons, esc_not_param]
    simp only [Bool.false_eq_true, if_false]
    rw [interTail_hostile (Or.inr ⟨r, rfl⟩)]

lemma matchEsc_cons_not_esc {c : Char} {z : List Char} (hc : c ≠ escChar) :
    matchEsc (c :: z) = none := by
  cases z with
  | nil => rfl
  | cons d z0 =>
    unfold matchEsc
    dsimp only
    rw [if_neg hc]

lemma matchEsc_esc_hostile {t : List Char} (h : Hostile t) : matchEsc (escChar :: t) = none := by
  cases h with
  | inl h0 => subst h0; rfl
  | inr h0 =>
    obtain ⟨r, hr⟩ := h0
    subst hr
    unfold matchEsc
    dsimp only
    rw [if_pos rfl, if_neg (by rw [esc_not_twoByteFinal]; simp), if_neg (by simp [escChar])]

lemma interTail_cons_inter {c : Char} {z : List Char} (hc : isCsiInter c = true) :
    interTail (c :: z) = Option.map (fun pr => (c :: pr.1, pr.2)) (interTail z) := by
  unfold interTail
  rw [List.dropWhile_cons, if_pos hc, List.takeWhile_cons, if_pos hc]
  cases hd : z.dropWhile isCsiInter with
  | nil => rfl
  | cons f r0 =>
    dsimp only
    by_cases hf : isCsiFinal f = true
    · rw [if_pos hf, if_pos hf]
      simp
    · rw [if_neg hf, if_neg hf]
      rfl

lemma interTail_cons_not_inter {c : Char} {z : List Char} (hc : isCsiInter c = false) :
    interTail (c :: z) = if isCsiFinal c = true then some ([c], z) else none := by
  unfold interTail
  rw [List.dropWhile_cons, hc, List.takeWhile_cons, hc]
  simp only [Bool.false_eq_true, if_false]
  by_cases hf : isCsiFinal c = true
  · rw [if_pos hf, if_pos hf]; simp
  · rw [if_neg hf, if_neg hf]

lemma csiTail_cons_param {c : Char} {z : List Char} (hc : isCsiParam c = true) :
    csiTail (c :: z) = Option.map (fun pr => (c :: pr.1, pr.2)) (csiTail z) := by
  unfold csiTail
  rw [List.dropWhile_cons, if_pos hc, List.takeWhile_cons, if_pos hc]
  cases hd : interTail (z.dropWhile isCsiParam) with
  | none => rfl
  | some pr => obtain ⟨m, r⟩ := pr; simp

lemma csiTail_cons_not_param {c : Char} {z : List Char} (hc : isCsiParam c = false) :
    csiTail (c :: z) = interTail (c :: z) := by
  unfold csiTail
  rw [List.dropWhile_cons, hc, List.takeWhile_cons, hc]
  simp only [Bool.false_eq_true, if_false]
  cases hd : interTail (c :: z) with
  | none => rfl
  | some pr => obtain ⟨m, r⟩ := pr; simp

lemma interTail_none_mono :
    ∀ (u t t' : List Char) (m : Nat), interTail (u ++ t) = none → Hostile t' →
      interTail (List.take m u ++ t') = none := by
  intro u
  induction u with
  | nil => intro t t' m _ ht; simp only [List.take_nil, List.nil_append]; exact interTail_hostile ht
  | cons c u0 ih =>
    intro t t' m h ht
    cases m with
    | zero => simp only [List.take_zero, List.nil_append]; exact interTail_hostile ht
    | succ m0 =>
      rw [List.take_succ_cons, List.cons_append]
      by_cases hc : isCsiInter c = true
      · rw [interTail_cons_inter hc]
        rw [List.cons_append, interTail_cons_inter hc] at h
        have h0 : interTail (u0 ++ t) = none := by
          cases hd : interTail (u0 ++ t) with
          | none => rfl
          | some pr => rw [hd] at h; simp at h
        rw [ih t t' m0 h0 ht]
        rfl
      · have hc0 : isCsiInter c = false := by simp at hc; exact hc
        rw [interTail_cons_not_inter hc0]
        rw [List.cons_append, interTail_cons_not_inter hc0] at h
        by_cases hf : isCsiFinal c = true
        · rw [if_pos hf] at h; simp at h
        · rw [if_neg hf]

lemma csiTail_none_mono :
    ∀ (u t t' : List Char) (m : Nat), csiTail (u ++ t) = none → Hostile t' →
      csiTail (List.take m u ++ t') = none := by
  intro u
  induction u with
  | nil => intro t t' m _ ht; simp only [List.take_nil, List.nil_append]; exact csiTail_hostile ht
  | cons c u0 ih =>
    intro t t' m h ht
    cases m with
    | zero => simp only [List.take_zero, List.nil_append]; exact csiTail_hostile ht
    | succ m0 =>
      rw [List.take_succ_cons, List.cons_append]
      by_cases hc : isCsiParam c = true
      · rw [csiTail_cons_param hc]
        rw [List.cons_append, csiTail_cons_param hc] at h
        have h0 : csiTail (u0 ++ t) = none := by
          cases hd : csiTail (u0 ++ t) with
          | none => rfl
          | some pr => rw [hd] at h; simp at h
        rw [ih t t' m0 h0 ht]
        rfl
      · have hc0 : isCsiParam c = false := by simp at hc; exact hc
        rw [csiTail_cons_not_param hc0]
        rw [List.cons_append, csiTail_cons_not_param hc0] at h
        have h2 : interTail ((c :: u0) ++ t) = none := by rw [List.cons_append]; exact h
        have := interTail_none_mono (c :: u0) t t' (m0 + 1) h2 ht
        rw [List.take_succ_cons, List.cons_append] at this
        exact this

lemma matchEsc_none_mono :
    ∀ (y t t' : List Char) (n : Nat), y ≠ [] → 1 ≤ n → matchEsc (y ++ t) = none →
      Hostile t' → matchEsc (List.take n y ++ t') = none := by
  intro y t t' n hy hn h ht
  match y, n with
  | [], _ => exact absurd rfl hy
  | c :: y0, 0 => omega
  | c :: y0, n0 + 1 =>
    by_cases hc : c = escChar
    · subst hc
      match y0, n0 with
      | [], _ =>
        simp only [List.take_succ_cons, List.take_nil, List.cons_append, List.nil_append]
        exact matchEsc_esc_hostile ht
      | d :: y1, 0 =>
        simp only [List.take_succ_cons, List.take_zero, List.cons_append, List.nil_append]
        exact matchEsc_esc_hostile ht
      | d :: y1, n1 + 1 =>
        rw [List.cons_append, List.cons_append] at h
        unfold matchEsc at h
        dsimp only at h
        rw [if_pos rfl] at h
        simp only [List.take_succ_cons, List.cons_append]
        unfold matchEsc
        dsimp only
        rw [if_pos rfl]
        by_cases h1 : isTwoByteFinal d = true
        · rw [if_pos h1] at h; simp at h
        · rw [if_neg h1] at h
          rw [if_neg h1]
          by_cases h2 : d = '['
          · rw [if_pos h2] at h
            rw [if_pos h2]
            have hcsi : csiTail (y1 ++ t) = none := by
              cases hd : csiTail (y1 ++ t) with
              | none => rfl
              | some pr => obtain ⟨m, r⟩ := pr; rw [hd] at h; simp at h
            rw [csiTail_none_mono y1 t t' n1 hcsi ht]
          · rw [if_neg h2]
    · have : ∀ z, matchEsc (c :: z) = none := fun z => matchEsc_cons_not_esc hc
      rw [List.take_succ_cons, List.cons_append]
      exact this _

lemma flat_nil : flat [] = [] := rfl

lemma flat_cons (tok : Token) (ts : List Token) : flat (tok :: ts) = tok.raw ++ flat ts := by
  simp [flat]

lemma flat_consPlain (c : Char) (ts : List Token) : flat (consPlain c ts) = c :: flat ts := by
  cases ts with
  | nil => simp [consPlain, flat, Token.raw]
  | cons tok ts0 =>
    cases tok with
    | plain p => simp [consPlain, flat, Token.raw]
    | esc e => simp [consPlain, flat, Token.raw]

lemma plainOK_nil (t : List Char) : PlainOK [] t := by
  intro i hi
  simp at hi

lemma plainOK_cons_of {c : Char} {p t : List Char} (h0 : matchEsc (c :: (p ++ t)) = none)
    (h1 : PlainOK p t) : PlainOK (c :: p) t := by
  intro i hi
  cases i with
  | zero => simpa using h0
  | succ j =>
    rw [List.drop_succ_cons]
    exact h1 j (by simpa using hi)

lemma plainOK_head {c : Char} {p t : List Char} (h : PlainOK (c :: p) t) :
    matchEsc (c :: (p ++ t)) = none := by
  have := h 0 (by simp)
  simpa using this

lemma goodToks_shape {ts : List Token} (h : GoodToks ts) :
    ∃ p rest, ts = Token.plain p :: rest := by
  cases h with
  | last p hp => exact ⟨p, [], rfl⟩
  | step p e ts0 h1 h2 h3 => exact ⟨p, Token.esc e :: ts0, rfl⟩

lemma consPlain_good {c : Char} {p : List Char} {rest : List Token}
    (hg : GoodToks (Token.plain p :: rest)) (h0 : matchEsc (c :: (p ++ flat rest)) = none) :
    GoodToks (Token.plain (c :: p) :: rest) := by
  cases hg with
  | last _ hp =>
    apply GoodToks.last
    apply plainOK_cons_of _ hp
    simpa [flat_nil] using h0
  | step _ e ts0 h1 h2 h3 =>
    apply GoodToks.step _ _ _ h1 _ h3
    apply plainOK_cons_of _ h2
    rw [flat_cons] at h0
    exact h0

lemma splitAnsiGo_succ (f : Nat) (s : List Char) :
    splitAnsiGo (f + 1) s =
      match matchEsc s with
      | some (e, r) => Token.plain [] :: Token.esc e :: splitAnsiGo f r
      | none =>
        match s with
        | [] => [Token.plain []]
        | c :: t => consPlain c (splitAnsiGo f t) := rfl

lemma splitAnsiGo_flat :
    ∀ (fuel : Nat) (s : List Char), s.length < fuel → flat (splitAnsiGo fuel s) = s := by
  intro fuel
  induction fuel with
  | zero => intro s hs; omega
  | succ f ih =>
    intro s hs
    rw [splitAnsiGo_succ f s]
    cases hm : matchEsc s with
    | some pr =>
      obtain ⟨e, r⟩ := pr
      obtain ⟨hse, hraw⟩ := matchEsc_some hm
      have hlen : 2 ≤ e.length := IsEscRaw_length hraw
      have hr : r.length < f := by
        have : s.length = e.length + r.length := by rw [hse]; simp
        omega
      dsimp only
      rw [flat_cons, flat_cons, ih r hr]
      simp [Token.raw, hse]
    | none =>
      cases s with
      | nil => simp [flat, Token.raw]
      | cons c t =>
        dsimp only
        rw [flat_consPlain, ih t (by simp at hs; omega)]

lemma splitAnsiGo_fuel :
    ∀ (f1 f2 : Nat) (s : List Char), s.length < f1 → s.length < f2 →
      splitAnsiGo f1 s = splitAnsiGo f2 s := by
  intro f1
  induction f1 with
  | zero => intro f2 s h1; omega
  | succ f ih =>
    intro f2 s h1 h2
    cases f2 with
    | zero => omega
    | succ f0 =>
      rw [splitAnsiGo_succ f s, splitAnsiGo_succ f0 s]
      cases hm : matchEsc s with
      | some pr =>
        obtain ⟨e, r⟩ := pr
        obtain ⟨hse, hraw⟩ := matchEsc_some hm
        have hlen : 2 ≤ e.length := IsEscRaw_length hraw
        have hsl : s.length = e.length + r.length := by rw [hse]; simp
        dsimp only
        rw [ih f0 r (by omega) (by omega)]
      | none =>
        cases s with
        | nil => rfl
        | cons c t =>
          dsimp only
          rw [ih f0 t (by simp at h1; omega) (by simp at h2; omega)]

lemma splitAnsiGo_good :
    ∀ (fuel : Nat) (s : List Char), s.length < fuel → GoodToks (splitAnsiGo fuel s) := by
  intro fuel
  induction fuel with
  | zero => intro s hs; omega
  | succ f ih =>
    intro s hs
    rw [splitAnsiGo_succ f s]
    cases hm : matchEsc s with
    | some pr =>
      obtain ⟨e, r⟩ := pr
      obtain ⟨hse, hraw⟩ := matchEsc_some hm
      have hlen : 2 ≤ e.length := IsEscRaw_length hraw
      have hr : r.length < f := by
        have : s.length = e.length + r.length := by rw [hse]; simp
        omega
      dsimp only
      exact GoodToks.step [] e _ hraw (plainOK_nil _) (ih r hr)
    | none =>
      cases s with
      | nil => exact GoodToks.last [] (plainOK_nil _)
      | cons c t =>
        have ht : t.length < f := by simp at hs; omega
        have hg := ih t ht
        obtain ⟨p0, rest, hshape⟩ := goodToks_shape hg
        dsimp only
        rw [hshape]
        simp only [consPlain]
        apply consPlain_good (hshape ▸ hg)
        have hflat : p0 ++ flat rest = t := by
          have := splitAnsiGo_flat f t ht
          rw [hshape, flat_cons] at this
          simpa [Token.raw] using this
        rw [hflat]
        exact hm

lemma splitAnsi_flat (s : List Char) : flat (splitAnsi s) = s :=
  splitAnsiGo_flat (s.length + 1) s (by omega)

lemma splitAnsi_good (s : List Char) : GoodToks (splitAnsi s) :=
  splitAnsiGo_good (s.length + 1) s (by omega)

lemma splitAnsi_nil : splitAnsi [] = [Token.plain []] := rfl

lemma splitAnsi_prepend_plain :
    ∀ (p t : List Char) (q : List Char) (rest : List Token), PlainOK p t →
      splitAnsi t = Token.plain q :: rest → splitAnsi (p ++ t) = Token.plain (p ++ q) :: rest := by
  intro p
  induction p with
  | nil => intro t q rest _ h; simpa using h
  | cons c p0 ih =>
    intro t q rest hp h
    have h0 : matchEsc (c :: (p0 ++ t)) = none := plainOK_head hp
    have hrec := ih t q rest (fun i hi => hp (i + 1) (by simp; omega)) h
    show splitAnsiGo ((c :: p0 ++ t).length + 1) (c :: p0 ++ t) = _
    rw [List.cons_append, splitAnsiGo_succ, h0]
    dsimp only
    have hlen : (c :: (p0 ++ t)).length = (p0 ++ t).length + 1 := by simp
    rw [show (c :: (p0 ++ t)).length = (p0 ++ t).length + 1 from by simp]
    have : splitAnsiGo ((p0 ++ t).length + 1) (p0 ++ t) = splitAnsi (p0 ++ t) := rfl
    rw [this, hrec]
    simp [consPlain]

lemma splitAnsi_esc_head {e : List Char} (he : IsEscRaw e) (t : List Char) :
    splitAnsi (e ++ t) = Token.plain [] :: Token.esc e :: splitAnsi t := by
  show splitAnsiGo ((e ++ t).length + 1) (e ++ t) = _
  cases hf : (e ++ t).length + 1 with
  | zero => omega
  | succ f0 =>
    rw [splitAnsiGo_succ, matchEsc_append he t]
    dsimp only
    have h2 : 2 ≤ e.length := IsEscRaw_length he
    have : splitAnsiGo f0 t = splitAnsiGo (t.length + 1) t := by
      apply splitAnsiGo_fuel
      · have : (e ++ t).length = e.length + t.length := by simp
        omega
      · omega
    rw [this]
    rfl

lemma splitAnsi_flat_eq {ts : List Token} (h : GoodToks ts) : splitAnsi (flat ts) = ts := by
  induction h with
  | last p hp =>
    have hflat : flat [Token.plain p] = p ++ [] := by simp [flat, Token.raw]
    rw [hflat]
    rw [splitAnsi_prepend_plain p [] [] [] (by simpa using hp) splitAnsi_nil]
    simp
  | step p e ts0 hE hP hG ih =>
    have hflat : flat (Token.plain p :: Token.esc e :: ts0) = p ++ (e ++ flat ts0) := by
      rw [flat_cons, flat_cons]
      simp [Token.raw]
    rw [hflat]
    have h2 : splitAnsi (e ++ flat ts0) = Token.plain [] :: Token.esc e :: ts0 := by
      rw [splitAnsi_esc_head hE, ih]
    rw [splitAnsi_prepend_plain p (e ++ flat ts0) [] (Token.esc e :: ts0) hP h2]
    simp

lemma keptSeg_plainOK {comp t : List Char} {start stop pos : Nat} {t0 : List Char}
    (hP : PlainOK comp t) (ht : Hostile t0) : PlainOK (keptSeg start stop pos comp) t0 := by
  intro i hi
  unfold keptSeg at hi ⊢
  rw [List.length_take, List.length_drop] at hi
  have hia : i < stop - max pos start ∧ i < comp.length - (start - pos) := by
    constructor <;> omega
  rw [List.drop_take, List.drop_drop]
  have hlen : (start - pos) + i < comp.length := by omega
  have hy := hP ((start - pos) + i) hlen
  have hne : List.drop ((start - pos) + i) comp ≠ [] := by
    intro hcon
    have := congrArg List.length hcon
    rw [List.length_drop] at this
    simp at this
    omega
  have := matchEsc_none_mono (List.drop ((start - pos) + i) comp) t t0
    ((stop - max pos start) - i) hne (by omega) hy ht
  exact this

lemma truncToks_good {start stop : Nat} :
    ∀ {ts : List Token} (pos : Nat), GoodToks ts → GoodToks (truncToks start stop ts pos) := by
  intro ts pos h
  induction h generalizing pos with
  | last p hp =>
    show GoodToks [Token.plain (keptSeg start stop pos p)]
    exact GoodToks.last _ (keptSeg_plainOK hp (Or.inl rfl))
  | step p e ts0 hE hP hG ih =>
    show GoodToks (Token.plain (keptSeg start stop pos p) :: Token.esc e ::
      truncToks start stop ts0 (pos + p.length))
    apply GoodToks.step _ _ _ hE _ (ih (pos + p.length))
    apply keptSeg_plainOK hP
    obtain ⟨t1, ht1⟩ := IsEscRaw_head hE
    exact Or.inr ⟨t1 ++ flat (truncToks start stop ts0 (pos + p.length)), by rw [ht1]; simp⟩

lemma truncComponents_flat {start stop : Nat} :
    ∀ (ts : List Token) (pos : Nat),
      (truncComponents start stop ts pos).flatten = flat (truncToks start stop ts pos) := by
  intro ts
  induction ts with
  | nil => intro pos; rfl
  | cons tok ts0 ih =>
    intro pos
    cases tok with
    | esc e =>
      show (e :: truncComponents start stop ts0 pos).flatten =
        flat (Token.esc e :: truncToks start stop ts0 pos)
      rw [List.flatten_cons, flat_cons, ih pos]
      rfl
    | plain comp =>
      show (if comp.length ≤ start - pos then truncComponents start stop ts0 (pos + comp.length)
        else (comp.drop (start - pos)).take (stop - (pos + (start - pos))) ::
          truncComponents start stop ts0
            (pos + (start - pos) + (comp.length - (start - pos)))).flatten =
        flat (Token.plain (keptSeg start stop pos comp) ::
          truncToks start stop ts0 (pos + comp.length))
      rw [flat_cons]
      by_cases hc : comp.length ≤ start - pos
      · rw [if_pos hc]
        have hdrop : comp.drop (start - pos) = [] := List.drop_eq_nil_of_le hc
        have hseg : keptSeg start stop pos comp = [] := by
          unfold keptSeg
          rw [hdrop, List.take_nil]
        rw [hseg, ih (pos + comp.length)]
        rfl
      · rw [if_neg hc]
        rw [List.flatten_cons]
        have h1 : pos + (start - pos) = max pos start := by omega
        have h2 : pos + (start - pos) + (comp.length - (start - pos)) = pos + comp.length := by
          omega
        rw [h2, h1, ih (pos + comp.length)]
        rfl

lemma truncate_eq_flat (s : List Char) (start length : Nat) :
    truncate_ansi_string s start length =
      flat (truncToks start (start + length) (splitAnsi s) 0) := by
  unfold truncate_ansi_string
  exact truncComponents_flat (splitAnsi s) 0

lemma escToks_truncToks {start stop : Nat} :
    ∀ (ts : List Token) (pos : Nat), escToks (truncToks start stop ts pos) = escToks ts := by
  intro ts
  induction ts with
  | nil => intro pos; rfl
  | cons tok ts0 ih =>
    intro pos
    cases tok with
    | esc e =>
      show escToks (Token.esc e :: truncToks start stop ts0 pos) =
        escToks (Token.esc e :: ts0)
      simp only [escToks]
      exact congrArg (fun x => e :: x) (ih pos)
    | plain comp =>
      show escToks (Token.plain (keptSeg start stop pos comp) ::
        truncToks start stop ts0 (pos + comp.length)) = escToks (Token.plain comp :: ts0)
      simp only [escToks]
      exact ih (pos + comp.length)

lemma length_keptSeg (start stop pos : Nat) (comp : List Char) :
    (keptSeg start stop pos comp).length =
      min (stop - max pos start) (comp.length - (start - pos)) := by
  unfold keptSeg
  rw [List.length_take, List.length_drop]

lemma plainLen_truncToks {start stop : Nat} :
    ∀ (ts : List Token) (pos : Nat),
      plainLen (truncToks start stop ts pos) = min stop (pos + plainLen ts) - max pos start := by
  intro ts
  induction ts with
  | nil =>
    intro pos
    show 0 = min stop (pos + 0) - max pos start
    omega
  | cons tok ts0 ih =>
    intro pos
    cases tok with
    | esc e =>
      show plainLen (Token.esc e :: truncToks start stop ts0 pos) = _
      simp only [plainLen]
      rw [ih pos]
    | plain comp =>
      show plainLen (Token.plain (keptSeg start stop pos comp) ::
        truncToks start stop ts0 (pos + comp.length)) = _
      simp only [plainLen]
      rw [ih (pos + comp.length), length_keptSeg]
      have := plainLen (Token.plain comp :: ts0)
      show min (stop - max pos start) (comp.length - (start - pos)) +
        (min stop (pos + comp.length + plainLen ts0) - max (pos + comp.length) start) =
        min stop (pos + (comp.length + plainLen ts0)) - max pos start
      omega

lemma displayLen_truncate (s : List Char) (start length : Nat) :
    displayLen (truncate_ansi_string s start length) = min length (displayLen s - start) := by
  unfold displayLen
  rw [truncate_eq_flat s start length]
  rw [splitAnsi_flat_eq (truncToks_good 0 (splitAnsi_good s))]
  rw [plainLen_truncToks (splitAnsi s) 0]
  have h := plainLen (splitAnsi s)
  omega

lemma escToks_truncate (s : List Char) (start length : Nat) :
    escToks (splitAnsi (truncate_ansi_string s start length)) = escToks (splitAnsi s) := by
  rw [truncate_eq_flat s start length]
  rw [splitAnsi_flat_eq (truncToks_good 0 (splitAnsi_good s))]
  rw [escToks_truncToks (splitAnsi s) 0]

lemma applyViewport_state (tw : TuiWindow) (lines : List (List Char)) (cH cW : Nat)
    (st : WindowState) :
    (applyViewport tw lines cH cW st).2 =
      ⟨st.use_cached_lines, st.cached_lines,
        max 0 (min ((cH : Int) - (tw.height : Int)) st.vscroll_offset),
        max 0 (min ((cW : Int) - ((tw.width : Int) - 1)) st.hscroll_offset)⟩ := by
  unfold applyViewport
  dsimp only
  split
  · rfl
  · rfl

lemma gvc_offsets {tw : TuiWindow} {prov : Provider} {st : WindowState}
    {ls : List (List Char)} {H W : Nat}
    (hsnap : usedSnapshot prov st = some (ls, H, W)) (hne : ls ≠ [])
    {rout : Except PyExc (List Char)} {st1 : WindowState} {c : Nat}
    (hg : get_viewport_content tw prov st = (rout, st1, c)) :
    st1.vscroll_offset = max 0 (min ((H : Int) - (tw.height : Int)) st.vscroll_offset) ∧
    st1.hscroll_offset =
      max 0 (min ((W : Int) - ((tw.width : Int) - 1)) st.hscroll_offset) := by
  obtain ⟨fl, cl, v0, h0⟩ := st
  cases cl with
  | some cs =>
    cases fl with
    | true =>
      obtain ⟨lsc, Hc, Wc⟩ := cs
      unfold usedSnapshot at hsnap
      dsimp only at hsnap
      simp only [Option.some.injEq, Prod.mk.injEq] at hsnap
      obtain ⟨hls, hH, hW⟩ := hsnap
      unfold get_viewport_content at hg
      dsimp only at hg
      rw [if_neg (hls ▸ hne)] at hg
      cases hg
      rw [applyViewport_state]
      constructor
      · simp [hH]
      · simp [hW]
    | false =>
      unfold usedSnapshot at hsnap
      dsimp only at hsnap
      unfold get_viewport_content at hg
      dsimp only at hg
      cases hlg : get_lines_or_error prov with
      | error e => rw [hlg] at hsnap; dsimp only at hsnap; exact absurd hsnap (by simp)
      | ok lines =>
        rw [hlg] at hsnap hg
        dsimp only at hsnap hg
        by_cases hemp : lines = []
        · rw [if_pos hemp] at hsnap; exact absurd hsnap (by simp)
        · rw [if_neg hemp] at hsnap hg
          simp only [Option.some.injEq, Prod.mk.injEq] at hsnap
          obtain ⟨hls, hH, hW⟩ := hsnap
          cases hg
          rw [applyViewport_state]
          constructor
          · simp [hH]
          · simp [hW]
  | none =>
    unfold usedSnapshot at hsnap
    dsimp only at hsnap
    unfold get_viewport_content at hg
    dsimp only at hg
    cases hlg : get_lines_or_error prov with
    | error e => rw [hlg] at hsnap; dsimp only at hsnap; exact absurd hsnap (by simp)
    | ok lines =>
      rw [hlg] at hsnap hg
      dsimp only at hsnap hg
      by_cases hemp : lines = []
      · rw [if_pos hemp] at hsnap; exact absurd hsnap (by simp)
      · rw [if_neg hemp] at hsnap hg
        simp only [Option.some.injEq, Prod.mk.injEq] at hsnap
        obtain ⟨hls, hH, hW⟩ := hsnap
        cases hg
        rw [applyViewport_state]
        constructor
        · simp [hH]
        · simp [hW]

lemma render_ok_some {tw : TuiWindow} {prov : Provider} {st : WindowState}
    {out : List Char} {st1 : WindowState} {c : Nat}
    (hr : render tw prov st = (Except.ok (some out), st1, c)) :
    tw.valid = true ∧ get_viewport_content tw prov st = (Except.ok out, st1, c) := by
  unfold render at hr
  by_cases hv : tw.valid = false
  · rw [if_pos hv] at hr
    simp at hr
  · rw [if_neg hv] at hr
    refine ⟨by simpa using hv, ?_⟩
    cases hgv : get_viewport_content tw prov st with
    | mk r0 p0 =>
      obtain ⟨st0, c0⟩ := p0
      rw [hgv] at hr
      cases r0 with
      | ok o =>
        dsimp only at hr
        simp only [Prod.mk.injEq, Except.ok.injEq, Option.some.injEq] at hr
        obtain ⟨ho, hst, hc⟩ := hr
        rw [ho, hst, hc]
      | error e =>
        dsimp only at hr
        simp at hr

/-- C1: for every string `text` with display length `N` (count of characters
not belonging to an ANSI escape sequence) and every `start >= 0` and
`length >= 0`, the display length of `truncate_ansi_string(text, start,
length)` equals `max(0, min(length, N - start))`. -/
theorem C1_truncate_length_invariant (text : List Char) (start length : Nat) :
    (displayLen (truncate_ansi_string text start length) : Int) =
      max 0 (min (length : Int) ((displayLen text : Int) - (start : Int))) := by
  have h := displayLen_truncate text start length
  omega

/-- C2: every ANSI escape sequence present in `text` appears in the output of
`truncate_ansi_string(text, start, length)`, in its original relative order,
regardless of where it falls relative to the `[start, start+length)` window
(the lists of escape sequences of input and output are equal); in particular
`truncate_ansi_string("\x1b[31mhello\x1b[0m", 0, 3) = "\x1b[31mhel\x1b[0m"`. -/
theorem C2_escape_preservation (text : List Char) (start length : Nat) :
    escToks (splitAnsi (truncate_ansi_string text start length)) = escToks (splitAnsi text) ∧
    truncate_ansi_string ("\x1b[31mhello\x1b[0m".toList) 0 3 = "\x1b[31mhel\x1b[0m".toList :=
  ⟨escToks_truncate text start length, by decide⟩

/-- C7: tokenizing any string into alternating plain-text and escape-sequence
components and concatenating the components' raw text reproduces the input
exactly (lossless round trip). -/
theorem C7_tokenize_round_trip (s : List Char) : flat (splitAnsi s) = s :=
  splitAnsi_flat s

/-- C3 counterexample: the claimed invariant fails as stated.  With a content
provider that yields zero lines, a `vscroll(-1)` from the initial state
triggers a render that completes (writing the empty string) yet leaves
`vscroll_offset = -1`, violating `0 <= vscroll_offset`. -/
theorem C3_counterexample :
    (vscroll ⟨4, 10, true⟩ (Except.ok []) initState (-1)).1 = Except.ok (some []) ∧
    (vscroll ⟨4, 10, true⟩ (Except.ok []) initState (-1)).2.1.vscroll_offset = -1 ∧
    ¬(0 ≤ (vscroll ⟨4, 10, true⟩ (Except.ok []) initState (-1)).2.1.vscroll_offset) := by
  decide

/-- C3 (amended): after any render that completes by writing output computed
from a non-empty snapshot (cached or freshly regenerated) with dimensions
`H`, `W`, the offsets satisfy `0 ≤ vscroll_offset ≤ max(0, H - height)` and
`0 ≤ hscroll_offset ≤ max(0, W - (width - 1))` (the code's `window_width`
reserves one column as margin).  A render of zero-line content returns the
empty string without clamping, so stale offsets survive such renders. -/
theorem C3_amended_offsets_clamped (tw : TuiWindow) (prov : Provider) (st : WindowState)
    (ls : List (List Char)) (H W : Nat) (out : List Char) (st1 : WindowState) (c : Nat)
    (hsnap : usedSnapshot prov st = some (ls, H, W)) (hne : ls ≠ [])
    (hr : render tw prov st = (Except.ok (some out), st1, c)) :
    0 ≤ st1.vscroll_offset ∧ st1.vscroll_offset ≤ max 0 ((H : Int) - (tw.height : Int)) ∧
    0 ≤ st1.hscroll_offset ∧
    st1.hscroll_offset ≤ max 0 ((W : Int) - ((tw.width : Int) - 1)) := by
  obtain ⟨hv, hg⟩ := render_ok_some hr
  obtain ⟨h1, h2⟩ := gvc_offsets hsnap hne hg
  rw [h1, h2]
  refine ⟨?_, ?_, ?_, ?_⟩ <;> omega

/-- C3 witness: the amended invariant at a concrete render (one line `"a"`,
window 4x10, initial state). -/
theorem C3_amended_witness :
    0 ≤ ((⟨false, some ([['a']], 1, 1), 0, 0⟩ : WindowState)).vscroll_offset ∧
    ((⟨false, some ([['a']], 1, 1), 0, 0⟩ : WindowState)).vscroll_offset ≤
      max 0 ((1 : Int) - (4 : Int)) ∧
    0 ≤ ((⟨false, some ([['a']], 1, 1), 0, 0⟩ : WindowState)).hscroll_offset ∧
    ((⟨false, some ([['a']], 1, 1), 0, 0⟩ : WindowState)).hscroll_offset ≤
      max 0 ((1 : Int) - ((10 : Int) - 1)) :=
  C3_amended_offsets_clamped ⟨4, 10, true⟩ (Except.ok [['a']]) initState [['a']] 1 1 ['a']
    ⟨false, some ([['a']], 1, 1), 0, 0⟩ 1 (by decide) (by decide) (by decide)

lemma truncateChecked_nonneg (l : List Char) (s L : Int) (hs : 0 ≤ s) (hL : 0 ≤ L) :
    truncateChecked l s L = Except.ok (truncate_ansi_string l s.toNat L.toNat) := by
  unfold truncateChecked
  rw [if_neg]
  intro hc
  rcases hc with hc | hc <;> omega

lemma mapExcept_ok_of {f : List Char → Except PyExc (List Char)} {g : List Char → List Char}
    (h : ∀ l, f l = Except.ok (g l)) :
    ∀ ls : List (List Char), mapExcept f ls = Except.ok (ls.map g) := by
  intro ls
  induction ls with
  | nil => rfl
  | cons l ls0 ih =>
    show mapExcept f (l :: ls0) = _
    unfold mapExcept
    rw [h l, ih]
    rfl

lemma applyViewport_full (tw : TuiWindow) (lines : List (List Char)) (cH cW : Nat)
    (st : WindowState) (hw : 1 ≤ tw.width) :
    applyViewport tw lines cH cW st =
      (Except.ok (List.intercalate ['\n'] (List.map
        (fun l => truncate_ansi_string l
          (max 0 (min ((cW : Int) - ((tw.width : Int) - 1)) st.hscroll_offset)).toNat
          (tw.width - 1))
        (if (tw.height : Int) - (cH : Int) < 0 then
          if 0 ≤ (tw.height : Int) -
              ((cH : Int) - max 0 (min ((cH : Int) - (tw.height : Int)) st.vscroll_offset)) then
            List.drop (max 0 (min ((cH : Int) - (tw.height : Int)) st.vscroll_offset)).toNat lines
          else
            List.take tw.height
              (List.drop (max 0 (min ((cH : Int) - (tw.height : Int)) st.vscroll_offset)).toNat
                lines)
        else lines))),
      ⟨st.use_cached_lines, st.cached_lines,
        max 0 (min ((cH : Int) - (tw.height : Int)) st.vscroll_offset),
        max 0 (min ((cW : Int) - ((tw.width : Int) - 1)) st.hscroll_offset)⟩) := by
  unfold applyViewport
  dsimp only
  have hh : 0 ≤ max 0 (min ((cW : Int) - ((tw.width : Int) - 1)) st.hscroll_offset) :=
    le_max_left 0 _
  have hwn : 0 ≤ (tw.width : Int) - 1 := by omega
  have htc : ∀ l, truncateChecked l
      (max 0 (min ((cW : Int) - ((tw.width : Int) - 1)) st.hscroll_offset))
      ((tw.width : Int) - 1) =
      Except.ok (truncate_ansi_string l
        (max 0 (min ((cW : Int) - ((tw.width : Int) - 1)) st.hscroll_offset)).toNat
        (tw.width - 1)) := by
    intro l
    rw [truncateChecked_nonneg l _ _ hh hwn]
    have : ((tw.width : Int) - 1).toNat = tw.width - 1 := by omega
    rw [this]
  rw [mapExcept_ok_of htc]

lemma gvc_cached {tw : TuiWindow} {prov : Provider} {v h : Int} {ls : List (List Char)}
    {H W : Nat} (hne : ls ≠ []) :
    get_viewport_content tw prov ⟨true, some (ls, H, W), v, h⟩ =
      ((applyViewport tw ls H W ⟨false, some (ls, H, W), v, h⟩).1,
       (applyViewport tw ls H W ⟨false, some (ls, H, W), v, h⟩).2, 0) := by
  unfold get_viewport_content
  dsimp only
  rw [if_neg hne]

lemma gvc_cache_none {tw : TuiWindow} {prov : Provider} {fl : Bool} {v h : Int}
    {ls : List (List Char)} (hp : get_lines_or_error prov = Except.ok ls) (hne : ls ≠ []) :
    get_viewport_content tw prov ⟨fl, none, v, h⟩ =
      ((applyViewport tw ls ls.length (contentWidth ls)
          ⟨fl, some (ls, ls.length, contentWidth ls), v, h⟩).1,
       (applyViewport tw ls ls.length (contentWidth ls)
          ⟨fl, some (ls, ls.length, contentWidth ls), v, h⟩).2, 1) := by
  unfold get_viewport_content
  dsimp only
  rw [hp]
  dsimp only
  rw [if_neg hne]

lemma gvc_regen_flag_false {tw : TuiWindow} {prov : Provider} {cl} {v h : Int}
    {ls : List (List Char)} (hp : get_lines_or_error prov = Except.ok ls) (hne : ls ≠ []) :
    get_viewport_content tw prov ⟨false, cl, v, h⟩ =
      ((applyViewport tw ls ls.length (contentWidth ls)
          ⟨false, some (ls, ls.length, contentWidth ls), v, h⟩).1,
       (applyViewport tw ls ls.length (contentWidth ls)
          ⟨false, some (ls, ls.length, contentWidth ls), v, h⟩).2, 1) := by
  cases cl with
  | none => exact gvc_cache_none hp hne
  | some cs =>
    unfold get_viewport_content
    dsimp only
    rw [hp]
    dsimp only
    rw [if_neg hne]

lemma gvc_regen_flag_false_empty {tw : TuiWindow} {prov : Provider} {cl} {v h : Int}
    (hp : get_lines_or_error prov = Except.ok []) :
    get_viewport_content tw prov ⟨false, cl, v, h⟩ =
      (Except.ok [], ⟨false, cl, v, h⟩, 1) := by
  cases cl with
  | none =>
    unfold get_viewport_content
    dsimp only
    rw [hp]
    dsimp only
    rw [if_pos rfl]
  | some cs =>
    unfold get_viewport_content
    dsimp only
    rw [hp]
    dsimp only
    rw [if_pos rfl]

lemma render_state_eq_gvc {tw : TuiWindow} {prov : Provider} {st : WindowState}
    (hv : tw.valid = true) :
    (render tw prov st).2 = (get_viewport_content tw prov st).2 := by
  unfold render
  rw [if_neg (by simp [hv])]
  cases hgv : get_viewport_content tw prov st with
  | mk r0 p0 =>
    cases r0 with
    | ok o => rfl
    | error e => rfl

lemma render_of_gvc_ok {tw : TuiWindow} {prov : Provider} {st : WindowState}
    {out : List Char} {st1 : WindowState} {c : Nat} (hv : tw.valid = true)
    (hg : get_viewport_content tw prov st = (Except.ok out, st1, c)) :
    render tw prov st = (Except.ok (some out), st1, c) := by
  unfold render
  rw [if_neg (by simp [hv]), hg]

/-- C9 counterexample: a provider exception that is not a `gdb.error`
propagates out of `render`: with the provider raising a generic exception,
`render` returns that same exception instead of confining it. -/
theorem C9_counterexample :
    render ⟨4, 10, true⟩ (Except.error (PyExc.other ['b'])) initState =
      (Except.error (PyExc.other ['b']), initState, 1) := by
  decide

/-- C9 (amended): only `gdb.error` is confined.  A `gdb.error` raised by the
content provider never propagates out of `render` (for any state, any valid
or invalid window of positive width); an exception of any other type raised
by the provider propagates out of `render` unchanged whenever `render`
consults the provider, i.e. in every state in which the cached-snapshot
branch is not taken (`use_cached_lines` false or no cached snapshot). -/
theorem C9_amended_error_confinement :
    (∀ (tw : TuiWindow) (st : WindowState) (msg : List Char), 1 ≤ tw.width →
      ∀ e, (render tw (Except.error (PyExc.gdbError msg)) st).1 ≠ Except.error e) ∧
    (∀ (tw : TuiWindow) (st : WindowState) (msg : List Char), tw.valid = true →
      st.use_cached_lines = false ∨ st.cached_lines = none →
      render tw (Except.error (PyExc.other msg)) st =
        (Except.error (PyExc.other msg), st, 1)) := by
  constructor
  · intro tw st msg hw e
    unfold render
    by_cases hv : tw.valid = false
    · rw [if_pos hv]; simp
    · rw [if_neg hv]
      obtain ⟨fl, cl, v0, h0⟩ := st
      have hp : get_lines_or_error (Except.error (PyExc.gdbError msg)) = Except.ok [msg] := rfl
      cases cl with
      | some cs =>
        obtain ⟨lsc, Hc, Wc⟩ := cs
        cases fl with
        | true =>
          by_cases hemp : lsc = []
          · subst hemp
            unfold get_viewport_content
            dsimp only
            rw [if_pos rfl]
            simp
          · rw [gvc_cached hemp, applyViewport_full tw lsc Hc Wc _ hw]
            simp
        | false =>
          rw [gvc_regen_flag_false hp (by simp), applyViewport_full tw [msg] _ _ _ hw]
          simp
      | none =>
        rw [gvc_cache_none hp (by simp), applyViewport_full tw [msg] _ _ _ hw]
        simp
  · intro tw st msg hv hreg
    obtain ⟨fl, cl, v0, h0⟩ := st
    unfold render
    rw [if_neg (by simp [hv])]
    have hg : get_viewport_content tw (Except.error (PyExc.other msg)) ⟨fl, cl, v0, h0⟩ =
        (Except.error (PyExc.other msg), ⟨fl, cl, v0, h0⟩, 1) := by
      cases cl with
      | none =>
        cases fl with
        | false => rfl
        | true => rfl
      | some cs =>
        cases fl with
        | false => rfl
        | true =>
          rcases hreg with hr | hr
          · simp at hr
          · simp at hr
    rw [hg]

/-- C9 witness: the amended confinement at concrete inputs: a `gdb.error`
with message `"e"` on a valid 4x10 window never escapes `render`; a generic
exception propagates from the initial state (flag false) and also from the
state a scroll-before-first-render produces (flag true, cache empty). -/
theorem C9_amended_witness :
    (∀ e, (render ⟨4, 10, true⟩ (Except.error (PyExc.gdbError ['e'])) initState).1 ≠
      Except.error e) ∧
    render ⟨4, 10, true⟩ (Except.error (PyExc.other ['x'])) initState =
      (Except.error (PyExc.other ['x']), initState, 1) ∧
    render ⟨4, 10, true⟩ (Except.error (PyExc.other ['x'])) ⟨true, none, 0, 0⟩ =
      (Except.error (PyExc.other ['x']), ⟨true, none, 0, 0⟩, 1) :=
  ⟨C9_amended_error_confinement.1 ⟨4, 10, true⟩ initState ['e'] (by decide),
   C9_amended_error_confinement.2 ⟨4, 10, true⟩ initState ['x'] (by decide)
     (Or.inl (by decide)),
   C9_amended_error_confinement.2 ⟨4, 10, true⟩ ⟨true, none, 0, 0⟩ ['x'] (by decide)
     (Or.inr (by decide))⟩

/-- C6 counterexample: a scroll issued while the cache is empty leaves
`use_cached_lines = true` through the full regeneration its render performs:
after `vscroll(1)` from the initial state the render regenerated content
(the provider was invoked, count 1) yet the flag is still `true`. -/
theorem C6_counterexample :
    (vscroll ⟨4, 10, true⟩ (Except.ok [['a']]) initState 1).2.1.use_cached_lines = true ∧
    (vscroll ⟨4, 10, true⟩ (Except.ok [['a']]) initState 1).2.2 = 1 := by
  decide

/-- C6 (amended): a render that performs a full regeneration (does not take
the cached-snapshot branch) leaves `use_cached_lines` unchanged rather than
resetting it; in particular the flag is `false` after such a render if and
only if it was `false` before.  Only the cached-snapshot branch resets the
flag, so a scroll issued while the cache is empty leaves the flag `true`
through the regeneration its render performs. -/
theorem C6_amended_flag_unchanged (tw : TuiWindow) (prov : Provider) (st : WindowState)
    (hv : tw.valid = true)
    (hreg : st.use_cached_lines = false ∨ st.cached_lines = none) :
    (render tw prov st).2.1.use_cached_lines = st.use_cached_lines ∧
    (st.use_cached_lines = false → (render tw prov st).2.1.use_cached_lines = false) := by
  have hmain : (render tw prov st).2.1.use_cached_lines = st.use_cached_lines := by
    rw [render_state_eq_gvc hv]
    obtain ⟨fl, cl, v0, h0⟩ := st
    cases hlg : get_lines_or_error prov with
    | error e =>
      have hg : get_viewport_content tw prov ⟨fl, cl, v0, h0⟩ =
          (Except.error e, ⟨fl, cl, v0, h0⟩, 1) := by
        cases cl with
        | none =>
          unfold get_viewport_content
          dsimp only
          rw [hlg]
        | some cs =>
          cases fl with
          | false =>
            unfold get_viewport_content
            dsimp only
            rw [hlg]
          | true =>
            rcases hreg with hr | hr
            · simp at hr
            · simp at hr
      rw [hg]
    | ok lines =>
      by_cases hemp : lines = []
      · subst hemp
        cases cl with
        | none =>
          cases fl with
          | false => rw [gvc_regen_flag_false_empty hlg]
          | true =>
            unfold get_viewport_content
            dsimp only
            rw [hlg]
            dsimp only
            rw [if_pos rfl]
        | some cs =>
          cases fl with
          | false => rw [gvc_regen_flag_false_empty hlg]
          | true =>
            rcases hreg with hr | hr
            · simp at hr
            · simp at hr
      · cases cl with
        | none =>
          rw [gvc_cache_none hlg hemp, applyViewport_state]
        | some cs =>
          cases fl with
          | false => rw [gvc_regen_flag_false hlg hemp, applyViewport_state]
          | true =>
            rcases hreg with hr | hr
            · simp at hr
            · simp at hr
  exact ⟨hmain, fun hf => by rw [hmain, hf]⟩

/-- C6 witness: the amended statement at a concrete regeneration render
(initial state, one content line, valid 4x10 window). -/
theorem C6_amended_witness :
    (render ⟨4, 10, true⟩ (Except.ok [['a']]) initState).2.1.use_cached_lines =
      initState.use_cached_lines ∧
    (initState.use_cached_lines = false →
      (render ⟨4, 10, true⟩ (Except.ok [['a']]) initState).2.1.use_cached_lines = false) :=
  C6_amended_flag_unchanged ⟨4, 10, true⟩ (Except.ok [['a']]) initState (by decide)
    (Or.inl (by decide))

/-- C5 counterexample: with a provider yielding zero lines, nothing is
cached, so two consecutive `vscroll` calls from the empty-cache initial
state invoke the content provider twice (once per render), not at most
once. -/
theorem C5_counterexample :
    (vscroll ⟨4, 10, true⟩ (Except.ok []) initState 1).2.2 +
      (vscroll ⟨4, 10, true⟩ (Except.ok [])
        ((vscroll ⟨4, 10, true⟩ (Except.ok []) initState 1).2.1) 1).2.2 = 2 := by
  decide

/-- C5 (amended): starting from the empty-cache state, provided the first
content generation yields at least one line, two consecutive `vscroll`
calls invoke the provider exactly once: the first render regenerates and
caches the snapshot, and the second scroll's render reuses the cached
snapshot, invoking the provider zero times.  (If the generation yields
zero lines, nothing is cached and every scroll's render invokes the
provider again, as the counterexample shows.) -/
theorem C5_amended_cache_reuse (tw : TuiWindow) (prov : Provider) (st : WindowState)
    (ls : List (List Char)) (n1 n2 : Int) (hv : tw.valid = true)
    (hcache : st.cached_lines = none)
    (hp : get_lines_or_error prov = Except.ok ls) (hne : ls ≠ []) :
    (vscroll tw prov st n1).2.2 = 1 ∧
    (vscroll tw prov st n1).2.1.cached_lines = some (ls, ls.length, contentWidth ls) ∧
    (vscroll tw prov st n1).2.1.use_cached_lines = true ∧
    (vscroll tw prov ((vscroll tw prov st n1).2.1) n2).2.2 = 0 := by
  obtain ⟨fl, cl, v0, h0⟩ := st
  simp only at hcache
  subst hcache
  have h1 : (vscroll tw prov ⟨fl, none, v0, h0⟩ n1).2 =
      ((applyViewport tw ls ls.length (contentWidth ls)
        ⟨true, some (ls, ls.length, contentWidth ls), v0 + n1, h0⟩).2, 1) := by
    show (render tw prov ⟨true, none, v0 + n1, h0⟩).2 = _
    rw [render_state_eq_gvc hv, gvc_cache_none hp hne]
  have hstate : (applyViewport tw ls ls.length (contentWidth ls)
      ⟨true, some (ls, ls.length, contentWidth ls), v0 + n1, h0⟩).2 =
      ⟨true, some (ls, ls.length, contentWidth ls),
        max 0 (min ((ls.length : Int) - (tw.height : Int)) (v0 + n1)),
        max 0 (min ((contentWidth ls : Int) - ((tw.width : Int) - 1)) h0)⟩ :=
    applyViewport_state tw ls ls.length (contentWidth ls) _
  refine ⟨?_, ?_, ?_, ?_⟩
  · rw [show (vscroll tw prov ⟨fl, none, v0, h0⟩ n1).2.2 =
      ((vscroll tw prov ⟨fl, none, v0, h0⟩ n1).2).2 from rfl, h1]
  · rw [show (vscroll tw prov ⟨fl, none, v0, h0⟩ n1).2.1 =
      ((vscroll tw prov ⟨fl, none, v0, h0⟩ n1).2).1 from rfl, h1, hstate]
  · rw [show (vscroll tw prov ⟨fl, none, v0, h0⟩ n1).2.1 =
      ((vscroll tw prov ⟨fl, none, v0, h0⟩ n1).2).1 from rfl, h1, hstate]
  · rw [show (vscroll tw prov ⟨fl, none, v0, h0⟩ n1).2.1 =
      ((vscroll tw prov ⟨fl, none, v0, h0⟩ n1).2).1 from rfl, h1, hstate]
    show (render tw prov ⟨true, some (ls, ls.length, contentWidth ls), _, _⟩).2.2 = 0
    rw [render_state_eq_gvc hv, gvc_cached hne]

/-- C5 witness: the amended cache reuse at a concrete input (one line `"a"`,
valid 4x10 window, two scrolls by 1 from the initial state). -/
theorem C5_amended_witness :
    (vscroll ⟨4, 10, true⟩ (Except.ok [['a']]) initState 1).2.2 = 1 ∧
    (vscroll ⟨4, 10, true⟩ (Except.ok [['a']]) initState 1).2.1.cached_lines =
      some ([['a']], List.length [['a']], contentWidth [['a']]) ∧
    (vscroll ⟨4, 10, true⟩ (Except.ok [['a']]) initState 1).2.1.use_cached_lines = true ∧
    (vscroll ⟨4, 10, true⟩ (Except.ok [['a']])
      ((vscroll ⟨4, 10, true⟩ (Except.ok [['a']]) initState 1).2.1) 1).2.2 = 0 :=
  C5_amended_cache_reuse ⟨4, 10, true⟩ (Except.ok [['a']]) initState [['a']] 1 1 (by decide)
    (by decide) (by decide) (by decide)

/-- C10: when a regeneration yields zero lines, `get_viewport_content`
returns the empty string leaving the whole state untouched: the cached
snapshot is not replaced and the scroll offsets are not clamped; a
previously cached non-empty snapshot survives, so the next scroll command's
render reuses it (provider not consulted, flag consumed, snapshot intact)
and writes output derived from it. -/
theorem C10_empty_regen_preserves_cache (tw : TuiWindow) (prov : Provider) (st : WindowState)
    (ls : List (List Char)) (H W : Nat) (hv : tw.valid = true) (hw : 1 ≤ tw.width)
    (hfl : st.use_cached_lines = false) (hcl : st.cached_lines = some (ls, H, W))
    (hne : ls ≠ []) (hp : get_lines_or_error prov = Except.ok []) :
    get_viewport_content tw prov st = (Except.ok [], st, 1) ∧
    ∀ n : Int, (vscroll tw prov st n).2.2 = 0 ∧
      (vscroll tw prov st n).2.1.cached_lines = some (ls, H, W) ∧
      (vscroll tw prov st n).2.1.use_cached_lines = false ∧
      ∃ out, (vscroll tw prov st n).1 = Except.ok (some out) := by
  obtain ⟨fl, cl, v0, h0⟩ := st
  simp only at hfl hcl
  subst hfl
  subst hcl
  constructor
  · exact gvc_regen_flag_false_empty hp
  · intro n
    have hgc := @gvc_cached tw prov (v0 + n) h0 ls H W hne
    have happ := applyViewport_full tw ls H W ⟨false, some (ls, H, W), v0 + n, h0⟩ hw
    have hr : vscroll tw prov ⟨false, some (ls, H, W), v0, h0⟩ n =
        render tw prov ⟨true, some (ls, H, W), v0 + n, h0⟩ := rfl
    rw [hr]
    have h2 := @render_state_eq_gvc tw prov ⟨true, some (ls, H, W), v0 + n, h0⟩ hv
    rw [hgc] at h2
    refine ⟨?_, ?_, ?_, ?_⟩
    · rw [show (render tw prov ⟨true, some (ls, H, W), v0 + n, h0⟩).2.2 =
        ((render tw prov ⟨true, some (ls, H, W), v0 + n, h0⟩).2).2 from rfl, h2]
    · rw [show (render tw prov ⟨true, some (ls, H, W), v0 + n, h0⟩).2.1 =
        ((render tw prov ⟨true, some (ls, H, W), v0 + n, h0⟩).2).1 from rfl, h2]
      rw [happ]
    · rw [show (render tw prov ⟨true, some (ls, H, W), v0 + n, h0⟩).2.1 =
        ((render tw prov ⟨true, some (ls, H, W), v0 + n, h0⟩).2).1 from rfl, h2]
      rw [happ]
    · cases happ1 : (applyViewport tw ls H W
          ⟨false, some (ls, H, W), v0 + n, h0⟩).1 with
      | error e =>
        rw [happ] at happ1
        simp at happ1
      | ok o =>
        refine ⟨o, ?_⟩
        have hok : get_viewport_content tw prov ⟨true, some (ls, H, W), v0 + n, h0⟩ =
            (Except.ok o,
              (applyViewport tw ls H W ⟨false, some (ls, H, W), v0 + n, h0⟩).2, 0) := by
          rw [hgc, happ1]
        rw [render_of_gvc_ok hv hok]

/-- C10 witness: the empty-regeneration behavior at a concrete input
(cached one-line snapshot, provider yielding zero lines, scroll by 1). -/
theorem C10_witness :
    get_viewport_content ⟨4, 10, true⟩ (Except.ok [])
        ⟨false, some ([['a']], 1, 1), 0, 0⟩ =
      (Except.ok [], ⟨false, some ([['a']], 1, 1), 0, 0⟩, 1) ∧
    ((vscroll ⟨4, 10, true⟩ (Except.ok []) ⟨false, some ([['a']], 1, 1), 0, 0⟩ 1).2.2 = 0 ∧
      (vscroll ⟨4, 10, true⟩ (Except.ok [])
        ⟨false, some ([['a']], 1, 1), 0, 0⟩ 1).2.1.cached_lines = some ([['a']], 1, 1) ∧
      (vscroll ⟨4, 10, true⟩ (Except.ok [])
        ⟨false, some ([['a']], 1, 1), 0, 0⟩ 1).2.1.use_cached_lines = false ∧
      ∃ out, (vscroll ⟨4, 10, true⟩ (Except.ok [])
        ⟨false, some ([['a']], 1, 1), 0, 0⟩ 1).1 = Except.ok (some out)) :=
  ⟨(C10_empty_regen_preserves_cache ⟨4, 10, true⟩ (Except.ok [])
      ⟨false, some ([['a']], 1, 1), 0, 0⟩ [['a']] 1 1 (by decide) (by decide) (by decide)
      (by decide) (by decide) (by decide)).1,
   (C10_empty_regen_preserves_cache ⟨4, 10, true⟩ (Except.ok [])
      ⟨false, some ([['a']], 1, 1), 0, 0⟩ [['a']] 1 1 (by decide) (by decide) (by decide)
      (by decide) (by decide) (by decide)).2 1⟩

lemma flat_truncToks_full {L : Nat} :
    ∀ (ts : List Token) (pos : Nat), pos + plainLen ts ≤ L →
      flat (truncToks 0 L ts pos) = flat ts := by
  intro ts
  induction ts with
  | nil => intro pos _; rfl
  | cons tok ts0 ih =>
    intro pos hle
    cases tok with
    | esc e =>
      show flat (Token.esc e :: truncToks 0 L ts0 pos) = flat (Token.esc e :: ts0)
      rw [flat_cons, flat_cons]
      have : plainLen (Token.esc e :: ts0) = plainLen ts0 := rfl
      rw [ih pos (by rw [this] at hle; exact hle)]
    | plain comp =>
      show flat (Token.plain (keptSeg 0 L pos comp) :: truncToks 0 L ts0 (pos + comp.length)) =
        flat (Token.plain comp :: ts0)
      rw [flat_cons, flat_cons]
      have hlen : plainLen (Token.plain comp :: ts0) = comp.length + plainLen ts0 := rfl
      rw [hlen] at hle
      have hseg : keptSeg 0 L pos comp = comp := by
        unfold keptSeg
        rw [Nat.zero_sub, List.drop_zero]
        have : max pos 0 = pos := by omega
        rw [this]
        exact List.take_of_length_le (by omega)
      rw [hseg, ih (pos + comp.length) (by omega)]

lemma truncate_full (s : List Char) (L : Nat) (h : displayLen s ≤ L) :
    truncate_ansi_string s 0 L = s := by
  rw [truncate_eq_flat s 0 L]
  have h0 : (0 : Nat) + L = L := by omega
  rw [h0]
  rw [flat_truncToks_full (splitAnsi s) 0 (by simpa [displayLen] using h)]
  exact splitAnsi_flat s

lemma intercalate_single (sep x : List Char) : List.intercalate sep [x] = x := by
  simp [List.intercalate]

lemma contentWidth_single (l : List Char) : contentWidth [l] = displayLen l := by
  simp [contentWidth]

/-- C8: when the content provider raises a `gdb.error`, a render that
consults the provider catches it at the viewport boundary, caches and
displays the error message as the single content line (shown in full when
it fits the window and the horizontal offset is not positive), and the next
render consults the provider again (retry). -/
theorem C8_gdb_error_display (tw : TuiWindow) (prov : Provider) (st : WindowState)
    (msg : List Char) (hprov : prov = Except.error (PyExc.gdbError msg))
    (hv : tw.valid = true) (hh : 1 ≤ tw.height) (hw : 1 ≤ tw.width)
    (hfl : st.use_cached_lines = false) (hho : st.hscroll_offset ≤ 0)
    (hmsg : displayLen msg ≤ tw.width - 1) :
    ∃ st1, render tw prov st = (Except.ok (some msg), st1, 1) ∧
      st1.cached_lines = some ([msg], 1, displayLen msg) ∧
      st1.use_cached_lines = false ∧
      (render tw prov st1).2.2 = 1 := by
  subst hprov
  obtain ⟨fl, cl, v0, h0⟩ := st
  simp only at hfl hho
  subst hfl
  have hp : get_lines_or_error (Except.error (PyExc.gdbError msg)) = Except.ok [msg] := rfl
  have hgv := @gvc_regen_flag_false tw (Except.error (PyExc.gdbError msg)) cl v0 h0 [msg]
    hp (by simp)
  have happ := applyViewport_full tw [msg] (List.length [msg]) (contentWidth [msg])
    ⟨false, some ([msg], List.length [msg], contentWidth [msg]), v0, h0⟩ hw
  rw [List.length_singleton, contentWidth_single] at hgv happ
  have hclamp : max 0 (min ((displayLen msg : Int) - ((tw.width : Int) - 1)) h0) = 0 := by
    have : (displayLen msg : Int) ≤ (tw.width : Int) - 1 := by omega
    omega
  have hcond : ¬((tw.height : Int) - ((1 : Nat) : Int) < 0) := by
    have : (1 : Int) ≤ (tw.height : Int) := by omega
    omega
  rw [hclamp, if_neg hcond] at happ
  simp only [Int.toNat_zero, List.map_cons, List.map_nil] at happ
  rw [truncate_full msg (tw.width - 1) hmsg, intercalate_single] at happ
  refine ⟨⟨false, some ([msg], 1, displayLen msg),
    max 0 (min ((1 : Int) - (tw.height : Int)) v0), 0⟩, ?_, rfl, rfl, ?_⟩
  · have hok : get_viewport_content tw (Except.error (PyExc.gdbError msg))
        ⟨false, cl, v0, h0⟩ =
        (Except.ok msg, ⟨false, some ([msg], 1, displayLen msg),
          max 0 (min ((1 : Int) - (tw.height : Int)) v0), 0⟩, 1) := by
      rw [hgv, happ]
      rfl
    rw [render_of_gvc_ok hv hok]
  · rw [render_state_eq_gvc hv]
    have hgv2 := @gvc_regen_flag_false tw (Except.error (PyExc.gdbError msg))
      (some ([msg], 1, displayLen msg))
      (max 0 (min ((1 : Int) - (tw.height : Int)) v0)) 0 [msg] hp (by simp)
    rw [hgv2]

/-- C8 witness: the gdb.error display at a concrete input (message `"err"`,
valid 4x10 window, initial state). -/
theorem C8_gdb_error_witness :
    ∃ st1, render ⟨4, 10, true⟩ (Except.error (PyExc.gdbError ['e', 'r', 'r'])) initState =
        (Except.ok (some ['e', 'r', 'r']), st1, 1) ∧
      st1.cached_lines = some ([['e', 'r', 'r']], 1, displayLen ['e', 'r', 'r']) ∧
      st1.use_cached_lines = false ∧
      (render ⟨4, 10, true⟩ (Except.error (PyExc.gdbError ['e', 'r', 'r'])) st1).2.2 = 1 :=
  C8_gdb_error_display ⟨4, 10, true⟩ (Except.error (PyExc.gdbError ['e', 'r', 'r'])) initState
    ['e', 'r', 'r'] rfl (by decide) (by decide) (by decide) (by decide) (by decide) (by decide)

/-- C4: (scenario) with content `"0" .. "9"` and window height 4, the initial
render shows lines 0,1,2,3; after `vscroll(2)` the render shows 2,3,4,5;
after `vscroll(100)` the render shows exactly the last four lines 6,7,8,9.
(general) For cached content of `H` lines with `H` greater than the window
height, a `vscroll(H)` overshoot from a non-negative offset renders exactly
the last `height` lines (horizontally truncated as every render does), with
the offset clamped to `H - height`. -/
theorem C4_scroll_clamp_scenario :
    ((render scenWindow (Except.ok scenLines) initState).1 =
        Except.ok (some ("0\n1\n2\n3".toList)) ∧
      (vscroll scenWindow (Except.ok scenLines)
          ((render scenWindow (Except.ok scenLines) initState).2.1) 2).1 =
        Except.ok (some ("2\n3\n4\n5".toList)) ∧
      (vscroll scenWindow (Except.ok scenLines)
          ((vscroll scenWindow (Except.ok scenLines)
            ((render scenWindow (Except.ok scenLines) initState).2.1) 2).2.1) 100).1 =
        Except.ok (some ("6\n7\n8\n9".toList))) ∧
    (∀ (tw : TuiWindow) (prov : Provider) (st : WindowState) (lines : List (List Char))
        (H W : Nat),
      tw.valid = true → 1 ≤ tw.width →
      st.cached_lines = some (lines, H, W) → lines.length = H → tw.height < H →
      0 ≤ st.vscroll_offset →
      ∃ st1, vscroll tw prov st (H : Int) =
          (Except.ok (some (List.intercalate ['\n'] (List.map
            (fun l => truncate_ansi_string l st1.hscroll_offset.toNat (tw.width - 1))
            (List.drop (H - tw.height) lines)))), st1, 0) ∧
        st1.vscroll_offset = (H : Int) - (tw.height : Int) ∧
        (List.drop (H - tw.height) lines).length = tw.height) := by
  constructor
  · refine ⟨?_, ?_, ?_⟩ <;> decide
  · intro tw prov st lines H W hv hw hcl hlen hH hvpos
    obtain ⟨fl, cl, v0, h0⟩ := st
    simp only at hcl hvpos
    subst hcl
    have hne : lines ≠ [] := by
      have hpos : 0 < lines.length := by omega
      exact List.length_pos.mp hpos
    have hgc := @gvc_cached tw prov (v0 + (H : Int)) h0 lines H W hne
    have happ := applyViewport_full tw lines H W
      ⟨false, some (lines, H, W), v0 + (H : Int), h0⟩ hw
    have hv1 : max 0 (min ((H : Int) - (tw.height : Int)) (v0 + (H : Int))) =
        (H : Int) - (tw.height : Int) := by omega
    rw [hv1] at happ
    have hc1 : ((tw.height : Int) - (H : Int) < 0) := by omega
    rw [if_pos hc1] at happ
    have hc2 : (0 : Int) ≤ (tw.height : Int) - ((H : Int) - ((H : Int) - (tw.height : Int))) := by
      omega
    rw [if_pos hc2] at happ
    have htn : ((H : Int) - (tw.height : Int)).toNat = H - tw.height := by omega
    rw [htn] at happ
    refine ⟨⟨false, some (lines, H, W), (H : Int) - (tw.height : Int),
      max 0 (min ((W : Int) - ((tw.width : Int) - 1)) h0)⟩, ?_, rfl, ?_⟩
    · have hok : get_viewport_content tw prov ⟨true, some (lines, H, W), v0 + (H : Int), h0⟩ =
          (Except.ok (List.intercalate ['\n'] (List.map
            (fun l => truncate_ansi_string l
              (max 0 (min ((W : Int) - ((tw.width : Int) - 1)) h0)).toNat (tw.width - 1))
            (List.drop (H - tw.height) lines))),
          ⟨false, some (lines, H, W), (H : Int) - (tw.height : Int),
            max 0 (min ((W : Int) - ((tw.width : Int) - 1)) h0)⟩, 0) := by
        rw [hgc, happ]
      exact render_of_gvc_ok hv hok
    · rw [List.length_drop]
      omega

/-- C4 witness: the general overshoot clamp at a concrete input (the
scenario content cached, `vscroll(10)` from offset 0). -/
theorem C4_scroll_clamp_witness :
    ∃ st1, vscroll scenWindow (Except.ok scenLines)
        ⟨false, some (scenLines, 10, 1), 0, 0⟩ ((10 : Nat) : Int) =
        (Except.ok (some (List.intercalate ['\n'] (List.map
          (fun l => truncate_ansi_string l st1.hscroll_offset.toNat (scenWindow.width - 1))
          (List.drop (10 - scenWindow.height) scenLines)))), st1, 0) ∧
      st1.vscroll_offset = ((10 : Nat) : Int) - (scenWindow.height : Int) ∧
      (List.drop (10 - scenWindow.height) scenLines).length = scenWindow.height :=
  C4_scroll_clamp_scenario.2 scenWindow (Except.ok scenLines)
    ⟨false, some (scenLines, 10, 1), 0, 0⟩ scenLines 10 1 (by decide) (by decide) (by decide)
    (by decide) (by decide) (by decide)
